import Mathlib

/-!
Shallow embedding of the AI-Meeting-Minutes-to-Task-Converter server core:
the in-memory task store (`MemStorage` in `server/storage.ts`), the
transcript/audio processing routes (`server/routes.ts`), the extraction
response handling and video-to-audio conversion (`server/openai.ts`), and
the client-side CSV export (`client/src/pages/task-converter.tsx`).

JavaScript `Map` semantics are embedded as association lists that preserve
insertion order: `set` on an existing key replaces the value in place,
`set` on a fresh key appends, `delete` removes the single matching entry.
Timestamps (`createdAt`, from `new Date()`) are embedded as naturals.
-/

namespace MeetTaskAI

/-- A stored task record (the `Task` entity of `@shared/schema`). -/
structure Task where
  id : Nat
  description : String
  assignee : String
  deadline : String
  priority : String
  createdAt : Nat
deriving DecidableEq, Repr

/-- An insert payload (`InsertTask`): the four user fields, with `priority`
optional (JS `undefined` is `none`). -/
structure InsertTask where
  description : String
  assignee : String
  deadline : String
  priority : Option String
deriving DecidableEq, Repr

/-- An update payload: the HTTP `PUT /api/tasks/:id` handler passes
`req.body` to the store unfiltered, so any of the record's keys may be
present; an absent key is `none` and the spread `{...existingTask, ...updates}`
keeps the old value for it. -/
structure UpdatePayload where
  id : Option Nat
  description : Option String
  assignee : Option String
  deadline : Option String
  priority : Option String
  createdAt : Option Nat
deriving DecidableEq, Repr

/-- The `MemStorage` state: the task `Map` (insertion-ordered association
list) and the `currentTaskId` counter. The unused user map is omitted. -/
structure MemStorage where
  tasks : List (Nat × Task)
  currentTaskId : Nat
deriving DecidableEq, Repr

/-- JS `Map.set`: replace in place if the key is present, else append. -/
def mapSet (l : List (Nat × Task)) (k : Nat) (v : Task) : List (Nat × Task) :=
  match l with
  | [] => [(k, v)]
  | (k', v') :: rest => if k' = k then (k, v) :: rest else (k', v') :: mapSet rest k v

/-- JS `Map.delete`: remove the entry if present; also report whether a
removal occurred. -/
def mapDelete (l : List (Nat × Task)) (k : Nat) : List (Nat × Task) × Bool :=
  match l with
  | [] => ([], false)
  | (k', v') :: rest =>
    if k' = k then (rest, true)
    else
      let r := mapDelete rest k
      ((k', v') :: r.1, r.2)

/-- JS `Map.get`: the value at the key, if present. -/
def mapGet (l : List (Nat × Task)) (k : Nat) : Option Task :=
  match l with
  | [] => none
  | (k', v') :: rest => if k' = k then some v' else mapGet rest k

/-- JS `Map.values()` in insertion order. -/
def mapValues (l : List (Nat × Task)) : List Task :=
  l.map Prod.snd

/-- JS `insertTask.priority || "P3"`: `undefined` and the empty string are
falsy and fall back to `"P3"`; any other string is stored verbatim. -/
def priorityOrDefault : Option String → String
  | none => "P3"
  | some p => if p = "" then "P3" else p

/-- `MemStorage.createTask`: assign `currentTaskId` (then increment it),
default the priority, stamp `createdAt` with the current time `now`. -/
def createTask (it : InsertTask) (now : Nat) (s : MemStorage) : Task × MemStorage :=
  let id := s.currentTaskId
  let task : Task :=
    { id := id
      description := it.description
      assignee := it.assignee
      deadline := it.deadline
      priority := priorityOrDefault it.priority
      createdAt := now }
  (task, { tasks := mapSet s.tasks id task, currentTaskId := id + 1 })

/-- The spread `{...existingTask, ...updates}`: every key present in the
payload overwrites the stored field, including `id` and `createdAt`. -/
def applyUpdates (t : Task) (u : UpdatePayload) : Task :=
  { id := u.id.getD t.id
    description := u.description.getD t.description
    assignee := u.assignee.getD t.assignee
    deadline := u.deadline.getD t.deadline
    priority := u.priority.getD t.priority
    createdAt := u.createdAt.getD t.createdAt }

/-- `MemStorage.updateTask`: `null` (here `none`) when the id is absent;
otherwise merge the payload over the stored record and re-`set` it under
the same key. -/
def updateTask (id : Nat) (u : UpdatePayload) (s : MemStorage) : Option Task × MemStorage :=
  match mapGet s.tasks id with
  | none => (none, s)
  | some t =>
    let t' := applyUpdates t u
    (some t', { s with tasks := mapSet s.tasks id t' })

/-- `MemStorage.deleteTask`: `Map.delete`, reporting whether a removal
occurred. -/
def deleteTask (id : Nat) (s : MemStorage) : Bool × MemStorage :=
  let r := mapDelete s.tasks id
  (r.2, { s with tasks := r.1 })

/-- `MemStorage.clearAllTasks`: `Map.clear` — the id counter is untouched. -/
def clearAllTasks (s : MemStorage) : MemStorage :=
  { s with tasks := [] }

/-- `MemStorage.getAllTasks`: the values sorted by `createdAt` descending
(the JS comparator `b.createdAt - a.createdAt`). -/
def getAllTasks (s : MemStorage) : List Task :=
  (mapValues s.tasks).mergeSort fun a b => b.createdAt ≤ a.createdAt

/-- The freshly constructed store: empty map, counter at 1. -/
def initStorage : MemStorage :=
  { tasks := [], currentTaskId := 1 }

/-- One store operation, as invocable through the HTTP layer. -/
inductive StoreOp where
  | create (it : InsertTask) (now : Nat)
  | update (id : Nat) (u : UpdatePayload)
  | delete (id : Nat)
  | clear
deriving DecidableEq, Repr

/-- Apply one operation to the store, discarding the returned value. -/
def stepOp (s : MemStorage) : StoreOp → MemStorage
  | .create it now => (createTask it now s).2
  | .update id u => (updateTask id u s).2
  | .delete id => (deleteTask id s).2
  | .clear => clearAllTasks s

/-- The ids returned by the `createTask` calls of an operation sequence,
in issue order. -/
def issuedIds (s : MemStorage) : List StoreOp → List Nat
  | [] => []
  | .create it now :: ops => (createTask it now s).1.id :: issuedIds (stepOp s (.create it now)) ops
  | op :: ops => issuedIds (stepOp s op) ops

/-- The number of `create` operations in a sequence. -/
def numCreates : List StoreOp → Nat
  | [] => 0
  | .create _ _ :: ops => numCreates ops + 1
  | _ :: ops => numCreates ops

/-- States reachable from the fresh store by any interleaving of
operations. -/
inductive Reachable : MemStorage → Prop
  | init : Reachable initStorage
  | step (s : MemStorage) (op : StoreOp) : Reachable s → Reachable (stepOp s op)

-- Basic lemmas about the Map embedding.

theorem mapGet_mapSet_self (l : List (Nat × Task)) (k : Nat) (v : Task) :
    mapGet (mapSet l k v) k = some v := by
  induction l with
  | nil => simp [mapSet, mapGet]
  | cons hd tl ih =>
    obtain ⟨k', v'⟩ := hd
    by_cases h : k' = k
    · simp [mapSet, h, mapGet]
    · simp [mapSet, h, mapGet, ih]

theorem mapGet_mapSet_other (l : List (Nat × Task)) (k j : Nat) (v : Task) (hjk : j ≠ k) :
    mapGet (mapSet l k v) j = mapGet l j := by
  have hkj : k ≠ j := fun h => hjk h.symm
  induction l with
  | nil => simp [mapSet, mapGet, hkj]
  | cons hd tl ih =>
    obtain ⟨k', v'⟩ := hd
    by_cases h : k' = k
    · subst h
      simp [mapSet, mapGet, hkj]
    · simp [mapSet, h, mapGet, ih]

theorem mapSet_of_not_mem (l : List (Nat × Task)) (k : Nat) (v : Task)
    (h : mapGet l k = none) : mapSet l k v = l ++ [(k, v)] := by
  induction l with
  | nil => simp [mapSet]
  | cons hd tl ih =>
    obtain ⟨k', v'⟩ := hd
    by_cases hk : k' = k
    · simp [mapGet, hk] at h
    · simp [mapGet, hk] at h
      simp [mapSet, hk, ih h]

theorem mapValues_mapSet_mem (l : List (Nat × Task)) (k : Nat) (v : Task) :
    v ∈ mapValues (mapSet l k v) := by
  induction l with
  | nil => simp [mapSet, mapValues]
  | cons hd tl ih =>
    obtain ⟨k', v'⟩ := hd
    by_cases h : k' = k
    · simp [mapSet, h, mapValues]
    · simp [mapSet, h, mapValues] at ih ⊢
      exact Or.inr ih

theorem mapDelete_of_not_mem (l : List (Nat × Task)) (k : Nat)
    (h : mapGet l k = none) : mapDelete l k = (l, false) := by
  induction l with
  | nil => simp [mapDelete]
  | cons hd tl ih =>
    obtain ⟨k', v'⟩ := hd
    by_cases hk : k' = k
    · simp [mapGet, hk] at h
    · simp [mapGet, hk] at h
      simp [mapDelete, hk, ih h]
theorem mapGet_mem_mapValues (l : List (Nat × Task)) (k : Nat) (t : Task)
    (h : mapGet l k = some t) : t ∈ mapValues l := by
  induction l with
  | nil => simp [mapGet] at h
  | cons hd tl ih =>
    obtain ⟨k', v'⟩ := hd
    by_cases hk : k' = k
    · simp [mapGet, hk] at h
      simp [mapValues, h]
    · simp [mapGet, hk] at h
      have h2 := ih h
      simp [mapValues] at h2 ⊢
      exact Or.inr h2

theorem mem_mapValues_mapSet (l : List (Nat × Task)) (k : Nat) (v x : Task)
    (h : x ∈ mapValues (mapSet l k v)) : x = v ∨ x ∈ mapValues l := by
  induction l with
  | nil =>
    simp [mapSet, mapValues] at h
    exact Or.inl h
  | cons hd tl ih =>
    obtain ⟨k', v'⟩ := hd
    by_cases hk : k' = k
    · simp [mapSet, hk, mapValues] at h
      rcases h with h | h
      · exact Or.inl h
      · exact Or.inr (by simp [mapValues, h])
    · simp [mapSet, hk, mapValues] at h
      rcases h with h | h
      · exact Or.inr (by simp [mapValues, h])
      · rcases ih (by simpa [mapValues] using h) with h2 | h2
        · exact Or.inl h2
        · exact Or.inr (by simp [mapValues] at h2 ⊢; exact Or.inr h2)

theorem mem_mapValues_mapDelete (l : List (Nat × Task)) (k : Nat) (x : Task)
    (h : x ∈ mapValues (mapDelete l k).1) : x ∈ mapValues l := by
  induction l with
  | nil => simpa [mapDelete] using h
  | cons hd tl ih =>
    obtain ⟨k', v'⟩ := hd
    by_cases hk : k' = k
    · simp [mapDelete, hk, mapValues] at h ⊢
      exact Or.inr h
    · simp [mapDelete, hk, mapValues] at h ⊢
      rcases h with h | h
      · exact Or.inl h
      · have h2 := ih (by simpa [mapValues] using h)
        simp [mapValues] at h2
        exact Or.inr h2

-- Counter behavior of the store operations.

theorem currentTaskId_updateTask (id : Nat) (u : UpdatePayload) (s : MemStorage) :
    (updateTask id u s).2.currentTaskId = s.currentTaskId := by
  unfold updateTask
  cases mapGet s.tasks id <;> rfl

theorem currentTaskId_deleteTask (id : Nat) (s : MemStorage) :
    (deleteTask id s).2.currentTaskId = s.currentTaskId := rfl

theorem currentTaskId_clearAllTasks (s : MemStorage) :
    (clearAllTasks s).currentTaskId = s.currentTaskId := rfl

/-- The ids issued by `createTask` along any operation sequence are exactly
the consecutive integers starting at the current counter value. -/
theorem issuedIds_eq_range (s : MemStorage) (ops : List StoreOp) :
    issuedIds s ops = List.range' s.currentTaskId (numCreates ops) := by
  induction ops generalizing s with
  | nil => rfl
  | cons op ops ih =>
    cases op with
    | create it now =>
      simp only [issuedIds, numCreates, List.range'_succ, ih]
      rfl
    | update id u =>
      simp only [issuedIds, numCreates, ih, stepOp, currentTaskId_updateTask]
    | delete id =>
      simp only [issuedIds, numCreates, ih, stepOp, currentTaskId_deleteTask]
    | clear =>
      simp only [issuedIds, numCreates, ih, stepOp, currentTaskId_clearAllTasks]

-- Sortedness of getAllTasks.

theorem getAllTasks_perm (s : MemStorage) :
    (getAllTasks s).Perm (mapValues s.tasks) :=
  List.mergeSort_perm (mapValues s.tasks) _

theorem getAllTasks_pairwise (s : MemStorage) :
    List.Pairwise (fun a b => b.createdAt ≤ a.createdAt) (getAllTasks s) := by
  have h := @List.sorted_mergeSort Task
    (fun a b : Task => b.createdAt ≤ a.createdAt)
    (fun a b c hab hbc => by
      simp only [decide_eq_true_eq] at hab hbc ⊢
      exact le_trans hbc hab)
    (fun a b => by
      simp only [Bool.or_eq_true, decide_eq_true_eq]
      exact le_total b.createdAt a.createdAt)
    (mapValues s.tasks)
  simpa using h

theorem mem_getAllTasks_iff (s : MemStorage) (t : Task) :
    t ∈ getAllTasks s ↔ t ∈ mapValues s.tasks :=
  (getAllTasks_perm s).mem_iff
/-- A candidate item as typed by `extractTasksFromTranscript`'s declared
interface (`ExtractedTask` in `server/openai.ts`): four string fields. -/
structure ExtractedTask where
  description : String
  assignee : String
  deadline : String
  priority : String
deriving DecidableEq, Repr

/-- The per-item validation in both route handlers:
`if (taskData.description && taskData.assignee && taskData.deadline)` —
JS string truthiness, i.e. all three non-empty. -/
def keepCandidate (c : ExtractedTask) : Bool :=
  (c.description != "") && (c.assignee != "") && (c.deadline != "")

/-- JS `String.prototype.trim`: strip leading and trailing whitespace. -/
def jsTrim (s : String) : String :=
  ⟨((s.data.dropWhile Char.isWhitespace).reverse.dropWhile Char.isWhitespace).reverse⟩

/-- Modelled from the spec: `insertTaskSchema.parse` comes from
`@shared/schema`, which is not among the provided sources. Per the spec
the candidate's four fields are already strings at this point, so `parse`
returns the payload unchanged as an insert record. -/
def toInsertTask (c : ExtractedTask) : InsertTask :=
  { description := c.description
    assignee := c.assignee
    deadline := c.deadline
    priority := some c.priority }

/-- The shared persistence loop of `POST /api/process-transcript` and
`POST /api/process-audio`: filter by `keepCandidate`, create each survivor
in order, collect the saved records. -/
def persistBatch (cands : List ExtractedTask) (now : Nat) (s : MemStorage) :
    List Task × MemStorage :=
  match cands with
  | [] => ([], s)
  | c :: cs =>
    if keepCandidate c then
      let r := createTask (toInsertTask c) now s
      let rest := persistBatch cs now r.2
      (r.1 :: rest.1, rest.2)
    else
      persistBatch cs now s

/-- The response of a pipeline route. Caught upstream failures are
classified into status codes by message inspection in the source; that
classification is ignored here and kept as `failed` with the message. -/
inductive PipelineResponse where
  | badRequest (msg : String)
  | failed (msg : String)
  | okTasks (count : Nat) (tasks : List Task)
  | okAudio (transcript : String) (count : Nat) (tasks : List Task)
deriving DecidableEq, Repr

/-- `POST /api/process-transcript`: reject a blank transcript, otherwise
run extraction (its result passed in, since the upstream call is an
external service) and persist the surviving candidates. -/
def processTranscript (transcript : String)
    (extracted : Except String (List ExtractedTask)) (now : Nat)
    (s : MemStorage) : PipelineResponse × MemStorage :=
  if jsTrim transcript = "" then (.badRequest "Transcript cannot be empty", s)
  else
    match extracted with
    | .error e => (.failed e, s)
    | .ok cands =>
      let r := persistBatch cands now s
      (.okTasks r.1.length r.1, r.2)

/-- `POST /api/process-audio`: reject a missing file, transcribe (result
passed in), fail early with "No speech detected in audio file" when the
transcript trims to empty, otherwise extract and persist. -/
def processAudio (hasFile : Bool) (transcribed : Except String String)
    (extracted : Except String (List ExtractedTask)) (now : Nat)
    (s : MemStorage) : PipelineResponse × MemStorage :=
  if hasFile = false then (.badRequest "No audio file provided", s)
  else
    match transcribed with
    | .error e => (.failed e, s)
    | .ok transcript =>
      if jsTrim transcript = "" then (.badRequest "No speech detected in audio file", s)
      else
        match extracted with
        | .error e => (.failed e, s)
        | .ok cands =>
          let r := persistBatch cands now s
          (.okAudio transcript r.1.length r.1, r.2)

/-- Every key of the task map is below the id counter; this holds for all
reachable stores and makes freshly created ids genuinely fresh. -/
def KeysBounded (s : MemStorage) : Prop :=
  ∀ k v, (k, v) ∈ s.tasks → k < s.currentTaskId

/-- A valid priority value: one of the three `P1`, `P2`, `P3`. -/
def validPriority (p : String) : Prop :=
  p = "P1" ∨ p = "P2" ∨ p = "P3"

/-- Reachability restricted to payloads whose caller-supplied priority is
absent, empty (at create), or one of the three valid values. -/
inductive ValidReach : MemStorage → Prop
  | init : ValidReach initStorage
  | create (s : MemStorage) (it : InsertTask) (now : Nat) :
      ValidReach s →
      (it.priority = none ∨ it.priority = some "" ∨
        ∃ p, it.priority = some p ∧ validPriority p) →
      ValidReach (createTask it now s).2
  | update (s : MemStorage) (id : Nat) (u : UpdatePayload) :
      ValidReach s →
      (u.priority = none ∨ ∃ p, u.priority = some p ∧ validPriority p) →
      ValidReach (updateTask id u s).2
  | delete (s : MemStorage) (id : Nat) :
      ValidReach s → ValidReach (deleteTask id s).2
  | clear (s : MemStorage) :
      ValidReach s → ValidReach (clearAllTasks s)
theorem mapGet_none_of_keys_lt (l : List (Nat × Task)) (c : Nat)
    (h : ∀ k v, (k, v) ∈ l → k < c) : mapGet l c = none := by
  induction l with
  | nil => rfl
  | cons hd tl ih =>
    obtain ⟨k', v'⟩ := hd
    have hk : k' < c := h k' v' (by simp)
    have hne : k' ≠ c := Nat.ne_of_lt hk
    simp [mapGet, hne]
    exact ih fun k v hm => h k v (by simp [hm])

theorem createTask_tasks_append (it : InsertTask) (now : Nat) (s : MemStorage)
    (hb : KeysBounded s) :
    (createTask it now s).2.tasks = s.tasks ++ [(s.currentTaskId, (createTask it now s).1)] := by
  have hnone : mapGet s.tasks s.currentTaskId = none :=
    mapGet_none_of_keys_lt s.tasks s.currentTaskId hb
  simp [createTask, mapSet_of_not_mem s.tasks s.currentTaskId _ hnone]

theorem keysBounded_createTask (it : InsertTask) (now : Nat) (s : MemStorage)
    (hb : KeysBounded s) : KeysBounded (createTask it now s).2 := by
  intro k v hmem
  rw [createTask_tasks_append it now s hb] at hmem
  have hcid : (createTask it now s).2.currentTaskId = s.currentTaskId + 1 := rfl
  rw [hcid]
  rcases List.mem_append.mp hmem with hm | hm
  · exact Nat.lt_succ_of_lt (hb k v hm)
  · simp at hm
    rw [hm.1]
    exact Nat.lt_succ_self _

/-- The observable fields of a stored record (everything but the id). -/
def taskFields (t : Task) : String × String × String × String × Nat :=
  (t.description, t.assignee, t.deadline, t.priority, t.createdAt)

/-- What the store records for a surviving candidate persisted at `now`. -/
def candFields (now : Nat) (c : ExtractedTask) : String × String × String × String × Nat :=
  (c.description, c.assignee, c.deadline, priorityOrDefault (some c.priority), now)

/-- The persistence loop: the store's values grow by exactly the saved
records, the saved records are exactly the surviving candidates in order,
and key-boundedness is preserved. -/
theorem persistBatch_spec (cands : List ExtractedTask) (now : Nat) (s : MemStorage)
    (hb : KeysBounded s) :
    mapValues (persistBatch cands now s).2.tasks
        = mapValues s.tasks ++ (persistBatch cands now s).1
      ∧ (persistBatch cands now s).1.map taskFields
        = (cands.filter keepCandidate).map (candFields now)
      ∧ KeysBounded (persistBatch cands now s).2 := by
  induction cands generalizing s with
  | nil => simpa [persistBatch] using hb
  | cons c cs ih =>
    by_cases hk : keepCandidate c
    · have happ := createTask_tasks_append (toInsertTask c) now s hb
      have hb1 := keysBounded_createTask (toInsertTask c) now s hb
      obtain ⟨ih1, ih2, ih3⟩ := ih (createTask (toInsertTask c) now s).2 hb1
      refine ⟨?_, ?_, ?_⟩
      · simp only [persistBatch, hk, if_true]
        rw [ih1, happ]
        simp [mapValues]
      · simp only [persistBatch, hk, if_true, List.map_cons, List.filter_cons_of_pos hk, ih2]
        rfl
      · simpa [persistBatch, hk] using ih3
    · obtain ⟨ih1, ih2, ih3⟩ := ih s hb
      refine ⟨?_, ?_, ?_⟩
      · simpa [persistBatch, hk] using ih1
      · simp only [persistBatch, hk, if_false, List.filter_cons_of_neg (by simpa using hk)]
        exact ih2
      · simpa [persistBatch, hk] using ih3
/-- Under priority-restricted payloads, every stored priority is valid. -/
theorem validReach_priorities (s : MemStorage) (h : ValidReach s) :
    ∀ t ∈ mapValues s.tasks, validPriority t.priority := by
  induction h with
  | init =>
    intro t ht
    simp [initStorage, mapValues] at ht
  | create s it now _ hp ih =>
    intro t ht
    have hm := mem_mapValues_mapSet s.tasks s.currentTaskId _ t
      (by simpa [createTask] using ht)
    rcases hm with he | hm
    · subst he
      show validPriority (priorityOrDefault it.priority)
      rcases hp with h0 | h0 | ⟨p, hp1, hp2⟩
      · simp [h0, priorityOrDefault, validPriority]
      · simp [h0, priorityOrDefault, validPriority]
      · rcases hp2 with h1 | h1 | h1 <;> simp [hp1, h1, priorityOrDefault, validPriority]
    · exact ih t hm
  | update s id u _ hp ih =>
    intro t ht
    cases hg : mapGet s.tasks id with
    | none =>
      simp [updateTask, hg] at ht
      exact ih t ht
    | some t0 =>
      have hm := mem_mapValues_mapSet s.tasks id (applyUpdates t0 u) t
        (by simpa [updateTask, hg] using ht)
      rcases hm with he | hm
      · subst he
        show validPriority (applyUpdates t0 u).priority
        rcases hp with h0 | ⟨p, hp1, hp2⟩
        · have ht0 := ih t0 (mapGet_mem_mapValues s.tasks id t0 hg)
          simpa [applyUpdates, h0] using ht0
        · simpa [applyUpdates, hp1] using hp2
      · exact ih t hm
  | delete s id _ ih =>
    intro t ht
    exact ih t (mem_mapValues_mapDelete s.tasks id t (by simpa [deleteTask] using ht))
  | clear s _ ih =>
    intro t ht
    simp [clearAllTasks, mapValues] at ht

/-- C1: within one process lifetime, `createTask` assigns ids from a
store-wide monotonic counter starting at 1: over any operation sequence
the issued ids are exactly the consecutive integers 1, 2, 3, …, so every
issued id is distinct from all previously issued ids and no id is ever
reused, even after `deleteTask` or `clearAllTasks` (neither touches the
counter). -/
theorem createTask_ids_monotonic (ops : List StoreOp) :
    issuedIds initStorage ops = List.range' 1 (numCreates ops)
      ∧ List.Pairwise (· < ·) (issuedIds initStorage ops) := by
  have h := issuedIds_eq_range initStorage ops
  refine ⟨h, ?_⟩
  rw [h]
  exact List.pairwise_lt_range' 1 (numCreates ops)

/-- C2: for every store state (in particular every reachable one),
`getAllTasks` returns exactly the current records — a permutation of the
stored values — sorted by `createdAt` descending, ties in arbitrary
order. -/
theorem getAllTasks_sorted_desc (s : MemStorage) :
    (getAllTasks s).Perm (mapValues s.tasks)
      ∧ List.Pairwise (fun a b => b.createdAt ≤ a.createdAt) (getAllTasks s) :=
  ⟨getAllTasks_perm s, getAllTasks_pairwise s⟩

/-- C4 fails as stated: the store normalizes nothing — `updateTask` merges
a caller-supplied priority verbatim, so a reachable state can hold the
priority `"P9"`. -/
theorem priority_invariant_counterexample :
    Reachable (stepOp (stepOp initStorage
        (.create ⟨"d", "a", "dl", none⟩ 0))
        (.update 1 ⟨none, none, none, none, some "P9", none⟩))
      ∧ ∃ t ∈ mapValues (stepOp (stepOp initStorage
          (.create ⟨"d", "a", "dl", none⟩ 0))
          (.update 1 ⟨none, none, none, none, some "P9", none⟩)).tasks,
        ¬ validPriority t.priority := by
  refine ⟨Reachable.step _ _ (Reachable.step _ _ Reachable.init), ?_⟩
  refine ⟨⟨1, "d", "a", "dl", "P9", 0⟩, ?_, ?_⟩
  · decide
  · simp [validPriority]

/-- C4 (amended): `createTask` defaults an absent or empty priority to
`"P3"` but stores any other supplied string verbatim, and `updateTask`
overwrites the priority with whatever the caller supplies; therefore the
invariant holds exactly for states reached with payloads whose priority is
absent, empty (at create), or one of `P1`/`P2`/`P3`. -/
theorem stored_priority_valid_of_validReach (s : MemStorage) (h : ValidReach s) :
    ∀ t ∈ mapValues s.tasks, validPriority t.priority :=
  validReach_priorities s h

/-- Witness for the amended C4 at a concrete restricted-payload state. -/
theorem stored_priority_valid_of_validReach_witness :
    ValidReach (updateTask 1 ⟨none, none, none, none, some "P1", none⟩
        (createTask ⟨"d", "a", "dl", none⟩ 0 initStorage).2).2
      ∧ ∀ t ∈ mapValues (updateTask 1 ⟨none, none, none, none, some "P1", none⟩
          (createTask ⟨"d", "a", "dl", none⟩ 0 initStorage).2).2.tasks,
        validPriority t.priority := by
  have hd : ValidReach (updateTask 1 ⟨none, none, none, none, some "P1", none⟩
      (createTask ⟨"d", "a", "dl", none⟩ 0 initStorage).2).2 :=
    ValidReach.update _ 1 _
      (ValidReach.create initStorage _ 0 ValidReach.init (Or.inl rfl))
      (Or.inr ⟨"P1", rfl, Or.inl rfl⟩)
  exact ⟨hd, stored_priority_valid_of_validReach _ hd⟩

theorem updateTask_none_of_absent (id : Nat) (u : UpdatePayload) (s : MemStorage)
    (h : mapGet s.tasks id = none) : updateTask id u s = (none, s) := by
  simp [updateTask, h]

/-- C8: `updateTask` on an id that is not in the store returns the
not-found signal (`none`) and leaves the store state — count and contents —
unchanged. -/
theorem updateTask_missing_id_noop (id : Nat) (u : UpdatePayload) (s : MemStorage)
    (h : mapGet s.tasks id = none) : updateTask id u s = (none, s) :=
  updateTask_none_of_absent id u s h

/-- Witness for C8 at a concrete store without the id. -/
theorem updateTask_missing_id_noop_witness :
    mapGet initStorage.tasks 7 = none
      ∧ updateTask 7 ⟨none, none, none, none, none, none⟩ initStorage
          = (none, initStorage) :=
  ⟨rfl, updateTask_missing_id_noop 7 ⟨none, none, none, none, none, none⟩ initStorage rfl⟩

/-- C10: when the unfiltered update payload carries an `id` key `j` that
differs from the record's key `i`, the merged record is stored with the
`id` field `j` while remaining keyed under `i`: it appears in
`getAllTasks` with id `j`, yet `deleteTask j` and `updateTask j` report
not-found when nothing is keyed under `j`. -/
theorem updateTask_id_overwrite (i j : Nat) (u : UpdatePayload) (t : Task)
    (s : MemStorage) (ht : mapGet s.tasks i = some t) (hu : u.id = some j)
    (hij : j ≠ i) (hj : mapGet s.tasks j = none) :
    (updateTask i u s).1 = some (applyUpdates t u)
      ∧ (applyUpdates t u).id = j
      ∧ mapGet (updateTask i u s).2.tasks i = some (applyUpdates t u)
      ∧ applyUpdates t u ∈ getAllTasks (updateTask i u s).2
      ∧ deleteTask j (updateTask i u s).2 = (false, (updateTask i u s).2)
      ∧ ∀ u', (updateTask j u' (updateTask i u s).2).1 = none := by
  have hs2 : (updateTask i u s).2 = { s with tasks := mapSet s.tasks i (applyUpdates t u) } := by
    simp [updateTask, ht]
  have hget_j : mapGet (updateTask i u s).2.tasks j = none := by
    rw [hs2]
    simpa [mapGet_mapSet_other s.tasks i j _ hij] using hj
  refine ⟨by simp [updateTask, ht], by simp [applyUpdates, hu], ?_, ?_, ?_, ?_⟩
  · rw [hs2]
    exact mapGet_mapSet_self s.tasks i _
  · rw [mem_getAllTasks_iff, hs2]
    exact mapValues_mapSet_mem s.tasks i _
  · have hdel := mapDelete_of_not_mem (updateTask i u s).2.tasks j hget_j
    simp [deleteTask, hdel]
  · intro u'
    rw [updateTask_none_of_absent j u' (updateTask i u s).2 hget_j]

/-- A concrete stored record for the C10 witness. -/
def c10Task : Task :=
  ⟨1, "d", "a", "dl", "P3", 0⟩

/-- A concrete one-record store for the C10 witness. -/
def c10Store : MemStorage :=
  ⟨[(1, c10Task)], 2⟩

/-- A concrete update payload carrying a foreign id for the C10 witness. -/
def c10Payload : UpdatePayload :=
  ⟨some 5, none, none, none, none, none⟩

/-- Witness for C10 at a concrete one-record store. -/
theorem updateTask_id_overwrite_witness :
    mapGet c10Store.tasks 1 = some c10Task
      ∧ c10Payload.id = some 5
      ∧ (5 : Nat) ≠ 1
      ∧ mapGet c10Store.tasks 5 = none
      ∧ ((updateTask 1 c10Payload c10Store).1 = some (applyUpdates c10Task c10Payload)
        ∧ (applyUpdates c10Task c10Payload).id = 5
        ∧ mapGet (updateTask 1 c10Payload c10Store).2.tasks 1
            = some (applyUpdates c10Task c10Payload)
        ∧ applyUpdates c10Task c10Payload ∈ getAllTasks (updateTask 1 c10Payload c10Store).2
        ∧ deleteTask 5 (updateTask 1 c10Payload c10Store).2
            = (false, (updateTask 1 c10Payload c10Store).2)
        ∧ ∀ u', (updateTask 5 u' (updateTask 1 c10Payload c10Store).2).1 = none) :=
  ⟨by decide, rfl, by decide, by decide,
    updateTask_id_overwrite 1 5 c10Payload c10Task c10Store (by decide) rfl
      (by decide) (by decide)⟩

/-- C3: during persistence of an extraction batch, a candidate is kept iff
`description`, `assignee` and `deadline` are all non-empty; the store's
values grow by exactly the saved records, which are exactly the surviving
candidates in order (dropped candidates never reach the store); and the
route still replies with success whose count equals the number of
survivors actually persisted. -/
theorem persistBatch_keeps_exactly_valid (cands : List ExtractedTask) (now : Nat)
    (s : MemStorage) (hb : KeysBounded s) (tr : String) (htr : jsTrim tr ≠ "") :
    (∀ c ∈ cands,
        keepCandidate c = true ↔ (c.description ≠ "" ∧ c.assignee ≠ "" ∧ c.deadline ≠ ""))
      ∧ mapValues (persistBatch cands now s).2.tasks
          = mapValues s.tasks ++ (persistBatch cands now s).1
      ∧ (persistBatch cands now s).1.map taskFields
          = (cands.filter keepCandidate).map (candFields now)
      ∧ processTranscript tr (.ok cands) now s
          = (.okTasks ((cands.filter keepCandidate).length) (persistBatch cands now s).1,
              (persistBatch cands now s).2) := by
  obtain ⟨h1, h2, h3⟩ := persistBatch_spec cands now s hb
  refine ⟨?_, h1, h2, ?_⟩
  · intro c _
    simp [keepCandidate, and_assoc]
  · have hlen : (persistBatch cands now s).1.length = (cands.filter keepCandidate).length := by
      have hc := congrArg List.length h2
      simpa using hc
    simp [processTranscript, htr, hlen]

/-- A surviving candidate for the C3 witness. -/
def c3Good : ExtractedTask :=
  ⟨"Prepare deck", "Aman", "10pm tomorrow", "P3"⟩

/-- A candidate with an empty assignee for the C3 witness. -/
def c3Bad : ExtractedTask :=
  ⟨"Follow up", "", "Wednesday", "P3"⟩

/-- Witness for C3 at a concrete batch with one invalid candidate. -/
theorem persistBatch_keeps_exactly_valid_witness :
    KeysBounded initStorage
      ∧ jsTrim "Aman, prepare the deck by 10pm tomorrow." ≠ ""
      ∧ ((∀ c ∈ [c3Good, c3Bad],
          keepCandidate c = true ↔ (c.description ≠ "" ∧ c.assignee ≠ "" ∧ c.deadline ≠ ""))
        ∧ mapValues (persistBatch [c3Good, c3Bad] 0 initStorage).2.tasks
            = mapValues initStorage.tasks ++ (persistBatch [c3Good, c3Bad] 0 initStorage).1
        ∧ (persistBatch [c3Good, c3Bad] 0 initStorage).1.map taskFields
            = ([c3Good, c3Bad].filter keepCandidate).map (candFields 0)
        ∧ processTranscript "Aman, prepare the deck by 10pm tomorrow."
              (.ok [c3Good, c3Bad]) 0 initStorage
            = (.okTasks (([c3Good, c3Bad].filter keepCandidate).length)
                  (persistBatch [c3Good, c3Bad] 0 initStorage).1,
                (persistBatch [c3Good, c3Bad] 0 initStorage).2)) :=
  ⟨fun _ _ h => absurd h (List.not_mem_nil _), by decide,
    persistBatch_keeps_exactly_valid [c3Good, c3Bad] 0 initStorage
      (fun _ _ h => absurd h (List.not_mem_nil _))
      "Aman, prepare the deck by 10pm tomorrow." (by decide)⟩

/-- C9: in the media pipeline, a transcript that trims to empty makes the
request fail early with the "no speech detected" 400 response, and the
store is left untouched — zero tasks persisted by that pipeline
instance. -/
theorem processAudio_empty_transcript_rejected (tr : String)
    (extracted : Except String (List ExtractedTask)) (now : Nat) (s : MemStorage)
    (h : jsTrim tr = "") :
    processAudio true (.ok tr) extracted now s
      = (.badRequest "No speech detected in audio file", s) := by
  simp [processAudio, h]

/-- Witness for C9 at a whitespace-only transcript. -/
theorem processAudio_empty_transcript_rejected_witness :
    jsTrim "  " = ""
      ∧ processAudio true (.ok "  ") (.ok []) 0 initStorage
          = (.badRequest "No speech detected in audio file", initStorage) :=
  ⟨by decide,
    processAudio_empty_transcript_rejected "  " (.ok []) 0 initStorage (by decide)⟩
-- CSV export (client/src/pages/task-converter.tsx, exportToCSV) and a
-- standard CSV reader for the round-trip property.

/-- The export's header row. -/
def csvHeader : String :=
  "Task,Assigned To,Due Date/Time,Priority"

/-- One export row: `description`, `assignee`, `deadline` wrapped in double
quotes via the template literal (no escaping of embedded quotes),
`priority` unquoted, joined with commas. -/
def csvRow (t : Task) : String :=
  "\"" ++ t.description ++ "\",\"" ++ t.assignee ++ "\",\"" ++ t.deadline
    ++ "\"," ++ t.priority

/-- JS `Array.prototype.join('\n')`. -/
def joinLines : List String → String
  | [] => ""
  | [x] => x
  | x :: xs => x ++ "\n" ++ joinLines xs

/-- `exportToCSV`: the header row followed by one row per task, joined by
newlines (no trailing newline). -/
def exportToCSV (ts : List Task) : String :=
  joinLines (csvHeader :: ts.map csvRow)

/-- Reader state: inside an unquoted field, inside a quoted field, or just
past a double quote inside a quoted field (deciding escape vs close). -/
inductive CsvMode where
  | plain
  | quoted
  | qclose
deriving DecidableEq, Repr

/-- Modelled from the spec: the repository ships no CSV reader, so the
round-trip property is stated against a standard RFC-4180-style reader —
fields separated by commas, records by newlines, a field starting with a
double quote is quoted (commas and newlines inside are literal), and a
doubled quote inside a quoted field denotes one quote character. -/
def csvAux : CsvMode → List Char → List (List Char) → List (List (List Char)) →
    List Char → List (List (List Char))
  | _, cur, fs, acc, [] => acc ++ [fs ++ [cur]]
  | .quoted, cur, fs, acc, c :: rest =>
    if c = '"' then csvAux .qclose cur fs acc rest
    else csvAux .quoted (cur ++ [c]) fs acc rest
  | .qclose, cur, fs, acc, c :: rest =>
    if c = '"' then csvAux .quoted (cur ++ ['"']) fs acc rest
    else if c = ',' then csvAux .plain [] (fs ++ [cur]) acc rest
    else if c = '\n' then csvAux .plain [] [] (acc ++ [fs ++ [cur]]) rest
    else csvAux .plain (cur ++ [c]) fs acc rest
  | .plain, cur, fs, acc, c :: rest =>
    if c = '"' ∧ cur = [] then csvAux .quoted cur fs acc rest
    else if c = ',' then csvAux .plain [] (fs ++ [cur]) acc rest
    else if c = '\n' then csvAux .plain [] [] (acc ++ [fs ++ [cur]]) rest
    else csvAux .plain (cur ++ [c]) fs acc rest

/-- Parse a CSV document into records of fields. -/
def parseCSV (s : String) : List (List String) :=
  (csvAux .plain [] [] [] s.data).map fun fs => fs.map fun cs => ⟨cs⟩

/-- Rows whose quoted fields contain no double quote and whose unquoted
priority contains no quote, comma, or newline. -/
def GoodCSV (t : Task) : Prop :=
  '"' ∉ t.description.data ∧ '"' ∉ t.assignee.data ∧ '"' ∉ t.deadline.data
    ∧ '"' ∉ t.priority.data ∧ ',' ∉ t.priority.data ∧ '\n' ∉ t.priority.data

theorem string_mk_data (s : String) : (⟨s.data⟩ : String) = s := rfl

instance decGoodCSV (t : Task) : Decidable (GoodCSV t) := by
  unfold GoodCSV
  infer_instance

-- Single-step reader facts.

theorem csvAux_plain_open (fs : List (List Char)) (acc : List (List (List Char)))
    (rest : List Char) :
    csvAux .plain [] fs acc ('"' :: rest) = csvAux .quoted [] fs acc rest := by
  simp [csvAux]

theorem csvAux_plain_comma (cur : List Char) (fs : List (List Char))
    (acc : List (List (List Char))) (rest : List Char) :
    csvAux .plain cur fs acc (',' :: rest) = csvAux .plain [] (fs ++ [cur]) acc rest := by
  simp only [csvAux]
  rw [if_neg (fun h => absurd h.1 (by decide))]
  simp

theorem csvAux_plain_newline (cur : List Char) (fs : List (List Char))
    (acc : List (List (List Char))) (rest : List Char) :
    csvAux .plain cur fs acc ('\n' :: rest)
      = csvAux .plain [] [] (acc ++ [fs ++ [cur]]) rest := by
  simp only [csvAux]
  rw [if_neg (fun h => absurd h.1 (by decide)), if_neg (by decide)]
  simp

theorem csvAux_quoted_quote (cur : List Char) (fs : List (List Char))
    (acc : List (List (List Char))) (rest : List Char) :
    csvAux .quoted cur fs acc ('"' :: rest) = csvAux .qclose cur fs acc rest := by
  simp [csvAux]

theorem csvAux_qclose_comma (cur : List Char) (fs : List (List Char))
    (acc : List (List (List Char))) (rest : List Char) :
    csvAux .qclose cur fs acc (',' :: rest) = csvAux .plain [] (fs ++ [cur]) acc rest := by
  simp only [csvAux]
  rw [if_neg (by decide)]
  simp

theorem csvAux_stop (m : CsvMode) (cur : List Char) (fs : List (List Char))
    (acc : List (List (List Char))) :
    csvAux m cur fs acc [] = acc ++ [fs ++ [cur]] := by
  cases m <;> simp only [csvAux]

-- Consuming a run of benign characters.

theorem csvAux_quoted_run : ∀ (f : List Char), '"' ∉ f →
    ∀ (cur : List Char) (fs : List (List Char)) (acc : List (List (List Char)))
      (rest : List Char),
      csvAux .quoted cur fs acc (f ++ rest) = csvAux .quoted (cur ++ f) fs acc rest
  | [], _, cur, fs, acc, rest => by simp
  | c :: f', hf, cur, fs, acc, rest => by
    have hc : c ≠ '"' := by
      rintro rfl
      exact hf (by simp)
    have hf' : '"' ∉ f' := fun hm => hf (by simp [hm])
    have hstep : csvAux .quoted cur fs acc (c :: (f' ++ rest))
        = csvAux .quoted (cur ++ [c]) fs acc (f' ++ rest) := by
      simp only [csvAux]
      rw [if_neg hc]
    rw [List.cons_append, hstep, csvAux_quoted_run f' hf' (cur ++ [c]) fs acc rest]
    simp

theorem csvAux_plain_run : ∀ (p : List Char), '"' ∉ p → ',' ∉ p → '\n' ∉ p →
    ∀ (cur : List Char) (fs : List (List Char)) (acc : List (List (List Char)))
      (rest : List Char),
      csvAux .plain cur fs acc (p ++ rest) = csvAux .plain (cur ++ p) fs acc rest
  | [], _, _, _, cur, fs, acc, rest => by simp
  | c :: p', hq, hcm, hnl, cur, fs, acc, rest => by
    have hc1 : c ≠ '"' := by
      rintro rfl
      exact hq (by simp)
    have hc2 : c ≠ ',' := by
      rintro rfl
      exact hcm (by simp)
    have hc3 : c ≠ '\n' := by
      rintro rfl
      exact hnl (by simp)
    have hstep : csvAux .plain cur fs acc (c :: (p' ++ rest))
        = csvAux .plain (cur ++ [c]) fs acc (p' ++ rest) := by
      simp only [csvAux]
      rw [if_neg (fun h => absurd h.1 hc1), if_neg hc2, if_neg hc3]
    rw [List.cons_append, hstep,
      csvAux_plain_run p' (fun hm => hq (by simp [hm])) (fun hm => hcm (by simp [hm]))
        (fun hm => hnl (by simp [hm])) (cur ++ [c]) fs acc rest]
    simp

theorem csvRow_data (t : Task) :
    (csvRow t).data
      = '"' :: (t.description.data ++ ('"' :: ',' :: '"' ::
          (t.assignee.data ++ ('"' :: ',' :: '"' ::
            (t.deadline.data ++ ('"' :: ',' :: t.priority.data)))))) := by
  have h1 : ("\"" : String).data = ['"'] := rfl
  have h2 : ("\",\"" : String).data = ['"', ',', '"'] := rfl
  have h3 : ("\"," : String).data = ['"', ','] := rfl
  simp [csvRow, String.data_append, h1, h2, h3]

/-- Parsing one exported row: the three quoted fields are delivered and the
reader is left consuming the unquoted priority. -/
theorem csvAux_row (t : Task) (h : GoodCSV t) (fs : List (List Char))
    (acc : List (List (List Char))) (rest : List Char) :
    csvAux .plain [] fs acc ((csvRow t).data ++ rest)
      = csvAux .plain t.priority.data
          (fs ++ [t.description.data, t.assignee.data, t.deadline.data]) acc rest := by
  obtain ⟨hd, ha, hdl, hp1, hp2, hp3⟩ := h
  have e1 : (csvRow t).data ++ rest
      = '"' :: (t.description.data ++ ('"' :: ',' :: '"' ::
          (t.assignee.data ++ ('"' :: ',' :: '"' ::
            (t.deadline.data ++ ('"' :: ',' :: (t.priority.data ++ rest))))))) := by
    rw [csvRow_data]
    simp
  rw [e1, csvAux_plain_open, csvAux_quoted_run _ hd, csvAux_quoted_quote,
    csvAux_qclose_comma, csvAux_plain_open, csvAux_quoted_run _ ha,
    csvAux_quoted_quote, csvAux_qclose_comma, csvAux_plain_open,
    csvAux_quoted_run _ hdl, csvAux_quoted_quote, csvAux_qclose_comma,
    csvAux_plain_run _ hp1 hp2 hp3]
  simp

/-- Four unquoted comma-separated fields ending a record. -/
theorem csvAux_four_plain_fields (w x y z : List Char)
    (hw1 : '"' ∉ w) (hw2 : ',' ∉ w) (hw3 : '\n' ∉ w)
    (hx1 : '"' ∉ x) (hx2 : ',' ∉ x) (hx3 : '\n' ∉ x)
    (hy1 : '"' ∉ y) (hy2 : ',' ∉ y) (hy3 : '\n' ∉ y)
    (hz1 : '"' ∉ z) (hz2 : ',' ∉ z) (hz3 : '\n' ∉ z)
    (acc : List (List (List Char))) (rest : List Char) :
    csvAux .plain [] [] acc (w ++ ',' :: (x ++ ',' :: (y ++ ',' :: (z ++ '\n' :: rest))))
      = csvAux .plain [] [] (acc ++ [[w, x, y, z]]) rest := by
  rw [csvAux_plain_run w hw1 hw2 hw3, csvAux_plain_comma,
    csvAux_plain_run x hx1 hx2 hx3, csvAux_plain_comma,
    csvAux_plain_run y hy1 hy2 hy3, csvAux_plain_comma,
    csvAux_plain_run z hz1 hz2 hz3, csvAux_plain_newline]
  simp

/-- Parsing the header row followed by a newline. -/
theorem csvAux_header_newline (acc : List (List (List Char))) (rest : List Char) :
    csvAux .plain [] [] acc (csvHeader.data ++ '\n' :: rest)
      = csvAux .plain [] []
          (acc ++ [["Task".data, "Assigned To".data, "Due Date/Time".data,
            "Priority".data]]) rest := by
  have hdecomp : csvHeader.data ++ '\n' :: rest
      = "Task".data ++ ',' :: ("Assigned To".data ++ ',' ::
          ("Due Date/Time".data ++ ',' :: ("Priority".data ++ '\n' :: rest))) := by
    have h0 : csvHeader.data
        = "Task".data ++ ',' :: ("Assigned To".data ++ ',' ::
            ("Due Date/Time".data ++ ',' :: "Priority".data)) := by decide
    rw [h0]
    simp
  rw [hdecomp]
  exact csvAux_four_plain_fields _ _ _ _ (by decide) (by decide) (by decide)
    (by decide) (by decide) (by decide) (by decide) (by decide) (by decide)
    (by decide) (by decide) (by decide) acc rest

/-- Parsing the joined data rows. -/
theorem csvAux_rows : ∀ (ts : List Task), ts ≠ [] → (∀ t ∈ ts, GoodCSV t) →
    ∀ acc, csvAux .plain [] [] acc ((joinLines (ts.map csvRow)).data)
      = acc ++ ts.map fun t =>
          [t.description.data, t.assignee.data, t.deadline.data, t.priority.data]
  | [], hne, _, _ => absurd rfl hne
  | [t], _, h, acc => by
    have hg : GoodCSV t := h t (by simp)
    show csvAux .plain [] [] acc ((csvRow t).data) = _
    rw [← List.append_nil (csvRow t).data, csvAux_row t hg, csvAux_stop]
    simp
  | t :: t2 :: ts', _, h, acc => by
    have hg : GoodCSV t := h t (by simp)
    have hjoin : joinLines ((t :: t2 :: ts').map csvRow)
        = csvRow t ++ "\n" ++ joinLines ((t2 :: ts').map csvRow) := rfl
    rw [hjoin]
    have hdata : (csvRow t ++ "\n" ++ joinLines ((t2 :: ts').map csvRow)).data
        = (csvRow t).data ++ '\n' :: (joinLines ((t2 :: ts').map csvRow)).data := by
      simp [String.data_append]
    rw [hdata, csvAux_row t hg, csvAux_plain_newline,
      csvAux_rows (t2 :: ts') (by simp) (fun x hx => h x (by simp [hx]))]
    simp

/-- C5 fails as stated: the export does not escape embedded double quotes,
so a description containing `"` does not survive the round trip — the
reader recovers `say hi""` from the row exported for `say "hi"`. -/
theorem csv_roundTrip_counterexample :
    parseCSV (exportToCSV [⟨1, "say \"hi\"", "a", "b", "P3", 0⟩])
        = [["Task", "Assigned To", "Due Date/Time", "Priority"],
           ["say hi\"\"", "a", "b", "P3"]]
      ∧ parseCSV (exportToCSV [⟨1, "say \"hi\"", "a", "b", "P3", 0⟩])
        ≠ [["Task", "Assigned To", "Due Date/Time", "Priority"],
           ["say \"hi\"", "a", "b", "P3"]] := by
  constructor
  · decide
  · decide

/-- C5 (amended): parse after export is the identity on `description`,
`assignee`, `deadline`, `priority` for every row whose three quoted fields
contain no double-quote character and whose priority contains no quote,
comma, or newline; embedded commas (and newlines) in the quoted fields are
correctly recovered, but the export performs no quote escaping, so an
embedded double quote is not. -/
theorem exportToCSV_roundTrip (ts : List Task) (h : ∀ t ∈ ts, GoodCSV t) :
    parseCSV (exportToCSV ts)
      = ["Task", "Assigned To", "Due Date/Time", "Priority"]
          :: ts.map fun t => [t.description, t.assignee, t.deadline, t.priority] := by
  cases ts with
  | nil => decide
  | cons t ts' =>
    have hjoin : exportToCSV (t :: ts')
        = csvHeader ++ "\n" ++ joinLines ((t :: ts').map csvRow) := rfl
    unfold parseCSV
    rw [hjoin]
    have hdata : (csvHeader ++ "\n" ++ joinLines ((t :: ts').map csvRow)).data
        = csvHeader.data ++ '\n' :: (joinLines ((t :: ts').map csvRow)).data := by
      simp [String.data_append]
    rw [hdata, csvAux_header_newline, csvAux_rows (t :: ts') (by simp) h]
    simp [string_mk_data]

/-- A row with an embedded comma for the C5 witness. -/
def c5Task : Task :=
  ⟨1, "fix header, then footer", "Aman", "10pm, tomorrow", "P2", 0⟩

/-- Witness for the amended C5 at a row with embedded commas. -/
theorem exportToCSV_roundTrip_witness :
    (∀ t ∈ [c5Task], GoodCSV t)
      ∧ parseCSV (exportToCSV [c5Task])
        = ["Task", "Assigned To", "Due Date/Time", "Priority"]
            :: [c5Task].map fun t => [t.description, t.assignee, t.deadline, t.priority] :=
  ⟨by decide, exportToCSV_roundTrip [c5Task] (by decide)⟩
-- Extraction response handling (server/openai.ts, extractTasksFromTranscript).

/-- A JavaScript runtime value as produced by `JSON.parse`. -/
inductive Js where
  | null
  | bool (b : Bool)
  | num (n : Int)
  | str (s : String)
  | arr (items : List Js)
  | obj (fields : List (String × Js))

/-- JS truthiness. -/
def jsTruthy : Js → Bool
  | .null => false
  | .bool b => b
  | .num n => n != 0
  | .str s => s != ""
  | .arr _ => true
  | .obj _ => true

/-- First-match field lookup on a parsed object. -/
def lookupField : List (String × Js) → String → Option Js
  | [], _ => none
  | (k', v) :: rest, k => if k' = k then some v else lookupField rest k

/-- Property access `v.k`: throws a `TypeError` on `null`; yields the field
or JS `undefined` (here `none`) otherwise. -/
def jsGet (v : Js) (k : String) : Except String (Option Js) :=
  match v with
  | .null => .error ("Cannot read properties of null (reading " ++ k ++ ")")
  | .obj fields => .ok (lookupField fields k)
  | _ => .ok none

/-- JS `x || y` where `x` may be `undefined`. -/
def jsOr (x : Option Js) (y : Js) : Js :=
  match x with
  | none => y
  | some v => if jsTruthy v then v else y

/-- One mapped candidate: each field is `task.<field> || default` exactly
as in the `tasks.map` callback. -/
structure JsCandidate where
  description : Js
  assignee : Js
  deadline : Js
  priority : Js

/-- The `tasks.map` callback body: throws if the element is `null`,
otherwise defaults each falsy/absent field. -/
def coerceItem (t : Js) : Except String JsCandidate :=
  match jsGet t "description", jsGet t "assignee", jsGet t "deadline", jsGet t "priority" with
  | .ok d, .ok a, .ok dl, .ok p =>
    .ok { description := jsOr d (.str ""), assignee := jsOr a (.str ""),
          deadline := jsOr dl (.str ""), priority := jsOr p (.str "P3") }
  | .error e, _, _, _ => .error e
  | _, .error e, _, _ => .error e
  | _, _, .error e, _ => .error e
  | _, _, _, .error e => .error e

/-- The response handling after `JSON.parse` succeeded:
`const tasks = Array.isArray(result) ? result : (result.tasks || []);`
followed by `tasks.map(...)` (which throws when `tasks` is not an
array). -/
def handleParsed (result : Js) : Except String (List JsCandidate) :=
  let tasksVal : Except String Js :=
    match result with
    | .arr items => .ok (.arr items)
    | _ =>
      match jsGet result "tasks" with
      | .error e => .error e
      | .ok tv => .ok (jsOr tv (.arr []))
  match tasksVal with
  | .error e => .error e
  | .ok (.arr items) => items.mapM coerceItem
  | .ok _ => .error "tasks.map is not a function"

/-- `extractTasksFromTranscript`: the upstream completion call and
`JSON.parse` are external, so their combined outcome is the input; the
surrounding `try`/`catch` prefixes any failure message. -/
def extractTasksFromTranscript (upstream : Except String Js) :
    Except String (List JsCandidate) :=
  match upstream with
  | .error e => .error ("Failed to process transcript with AI: " ++ e)
  | .ok r =>
    match handleParsed r with
    | .error e => .error ("Failed to process transcript with AI: " ++ e)
    | .ok l => .ok l

-- Video-to-audio conversion cleanup (server/openai.ts, extractAudioFromVideo).

/-- The environment of one conversion run: whether writing the temp video
succeeds, whether the external tool fails to start, its exit code, whether
the output audio file exists afterwards, and whether reading it back
succeeds. -/
structure ConvEnv where
  writeOk : Bool
  spawnFails : Bool
  exitCode : Int
  audioExists : Bool
  readOk : Bool
deriving DecidableEq, Repr

/-- What a conversion run leaves behind: the outcome and whether each
scratch file was unlinked. -/
structure ConvOutcome where
  result : Except String Unit
  videoDeleted : Bool
  audioDeleted : Bool

/-- `extractAudioFromVideo` control flow: write the temp video (reject on
failure), spawn the external tool; the `error` handler unlinks both scratch
files and rejects; the `close` handler always unlinks the temp video, then
on exit code 0 reads the audio — unlinking it only on a successful read —
and rejects on a missing or unreadable output or a nonzero exit code
without touching the audio file. -/
def extractAudioFromVideo (env : ConvEnv) : ConvOutcome :=
  if env.writeOk = false then
    { result := .error "Failed to write video file to disk",
      videoDeleted := false, audioDeleted := false }
  else if env.spawnFails then
    { result := .error "FFmpeg execution error",
      videoDeleted := true, audioDeleted := true }
  else if env.exitCode = 0 then
    if env.audioExists then
      if env.readOk then
        { result := .ok (), videoDeleted := true, audioDeleted := true }
      else
        { result := .error "Failed to read extracted audio file",
          videoDeleted := true, audioDeleted := false }
    else
      { result := .error "Audio file was not created by FFmpeg",
        videoDeleted := true, audioDeleted := false }
  else
    { result := .error "FFmpeg process failed",
      videoDeleted := true, audioDeleted := false }
/-- C6 fails as stated: a successfully parsed payload that is neither of
the two accepted shapes need not fail — an object without a `tasks` key
yields a successful empty candidate list, not `ExtractionFailed`. -/
theorem extraction_shape_counterexample :
    extractTasksFromTranscript (.ok (.obj [("summary", .str "x")])) = .ok []
      ∧ ∀ e, extractTasksFromTranscript (.ok (.obj [("summary", .str "x")])) ≠ .error e := by
  have h0 : extractTasksFromTranscript (.ok (.obj [("summary", .str "x")])) = .ok [] := rfl
  refine ⟨h0, fun e h => ?_⟩
  rw [h0] at h
  exact Except.noConfusion h

/-- C6 (amended): a parsed array is used directly, and an object's truthy
`tasks` list is used; but a payload that is neither shape does not
generally fail: an object whose `tasks` key is absent or falsy, and any
non-null primitive, yield the empty candidate list successfully. Among
successfully parsed payloads, the handler fails only on `null` and on an
object whose `tasks` key holds a truthy non-array value (element coercion
aside). -/
theorem extraction_two_shapes_amended :
    (∀ items : List Js, handleParsed (.arr items) = items.mapM coerceItem)
      ∧ (∀ fields items, lookupField fields "tasks" = some (.arr items) →
          handleParsed (.obj fields) = items.mapM coerceItem)
      ∧ (∀ fields, lookupField fields "tasks" = none →
          handleParsed (.obj fields) = .ok [])
      ∧ (∀ fields v, lookupField fields "tasks" = some v → jsTruthy v = false →
          handleParsed (.obj fields) = .ok [])
      ∧ (∀ n : Int, handleParsed (.num n) = .ok [])
      ∧ (∀ s : String, handleParsed (.str s) = .ok [])
      ∧ (∀ b : Bool, handleParsed (.bool b) = .ok [])
      ∧ (∃ e, handleParsed .null = .error e)
      ∧ (∀ fields v, lookupField fields "tasks" = some v → jsTruthy v = true →
          (∀ items, v ≠ Js.arr items) → ∃ e, handleParsed (.obj fields) = .error e) := by
  refine ⟨fun items => rfl, ?_, ?_, ?_, fun n => rfl, fun s => rfl, fun b => rfl,
    ⟨_, rfl⟩, ?_⟩
  · intro fields items h
    simp [handleParsed, jsGet, h, jsOr, jsTruthy]
  · intro fields h
    simp [handleParsed, jsGet, h, jsOr]
    rfl
  · intro fields v h hf
    simp [handleParsed, jsGet, h, jsOr, hf]
    rfl
  · intro fields v h ht hna
    cases v with
    | arr items => exact absurd rfl (hna items)
    | null => simp [jsTruthy] at ht
    | bool b => exact ⟨"tasks.map is not a function", by simp [handleParsed, jsGet, h, jsOr, ht]⟩
    | num n => exact ⟨"tasks.map is not a function", by simp [handleParsed, jsGet, h, jsOr, ht]⟩
    | str s => exact ⟨"tasks.map is not a function", by simp [handleParsed, jsGet, h, jsOr, ht]⟩
    | obj o => exact ⟨"tasks.map is not a function", by simp [handleParsed, jsGet, h, jsOr, ht]⟩

/-- Witness for the amended C6 at concrete payloads of each shape. -/
theorem extraction_two_shapes_amended_witness :
    handleParsed (.arr []) = ([] : List Js).mapM coerceItem
      ∧ handleParsed (.obj [("tasks", .arr [.obj [("description", .str "d")]])])
          = [Js.obj [("description", .str "d")]].mapM coerceItem
      ∧ handleParsed (.obj [("summary", .str "x")]) = .ok []
      ∧ handleParsed (.obj [("tasks", .null)]) = .ok []
      ∧ handleParsed (.num 5) = .ok []
      ∧ (∃ e, handleParsed (.obj [("tasks", .num 1)]) = .error e) := by
  have h := extraction_two_shapes_amended
  exact ⟨h.1 [], h.2.1 _ _ rfl, h.2.2.1 _ rfl, h.2.2.2.1 _ _ rfl rfl,
    h.2.2.2.2.1 5,
    h.2.2.2.2.2.2.2.2 _ _ rfl rfl (fun items h' => Js.noConfusion h')⟩

/-- C7 fails on one exit path: when the external tool exits 0 and the
produced audio file exists but reading it back throws, the handler rejects
without unlinking the temp audio file — the scratch audio file created
during the conversion survives the call. -/
theorem extractAudio_cleanup_bug :
    (⟨true, false, 0, true, false⟩ : ConvEnv).audioExists = true
      ∧ (extractAudioFromVideo ⟨true, false, 0, true, false⟩).result
          = .error "Failed to read extracted audio file"
      ∧ (extractAudioFromVideo ⟨true, false, 0, true, false⟩).audioDeleted = false :=
  ⟨rfl, rfl, rfl⟩

end MeetTaskAI
